import Mathlib

/-!
Shallow embedding of the WordPress quick-post extension's core:
the URL/auth utility and REST client (src/api/wordpress.ts) and the
site-credential store (src/storage/sites.ts).  Strings are modelled as
`List Char`; the host key-value store as an explicit `Store` state;
asynchronous fallible calls as `Except`-valued functions with the state
threaded explicitly.
-/

set_option maxRecDepth 4000

/-- Strings of the embedded program, as lists of characters. -/
abbrev Str := List Char

/-- Test for the `/` character, used by the leading-slash regexes of the source. -/
def isSlash (c : Char) : Bool := c == '/'

/-- JavaScript whitespace (the class trimmed by `String.prototype.trim`):
ASCII whitespace, NBSP, the Unicode space separators, line/paragraph
separators and the BOM. -/
def isJsWs (c : Char) : Bool :=
  c.toNat == 0x09 || c.toNat == 0x0A || c.toNat == 0x0B || c.toNat == 0x0C ||
  c.toNat == 0x0D || c.toNat == 0x20 || c.toNat == 0xA0 || c.toNat == 0x1680 ||
  (0x2000 ≤ c.toNat && c.toNat ≤ 0x200A) || c.toNat == 0x2028 || c.toNat == 0x2029 ||
  c.toNat == 0x202F || c.toNat == 0x205F || c.toNat == 0x3000 || c.toNat == 0xFEFF

/-- JavaScript `s.trim()`: drop whitespace from both ends. -/
def jsTrim (s : Str) : Str :=
  ((s.dropWhile isJsWs).reverse.dropWhile isJsWs).reverse

/-- JavaScript `s.endsWith("/")`. -/
def endsWithSlash (s : Str) : Bool := s.getLast? == some '/'

/-- JavaScript `s.startsWith(pat)`: `startsWithChars pat s`. -/
def startsWithChars : Str → Str → Bool
  | [], _ => true
  | _ :: _, [] => false
  | p :: ps, c :: cs => p == c && startsWithChars ps cs

/-- The default REST base returned for absent or blank input. -/
def defaultRestBase : Str := "/wp-json/wp/v2/".data

/-- `normalizeBaseUrl` from src/api/wordpress.ts: `baseUrl.replace(/\/$/, "")`
removes one trailing slash when present. -/
def normalizeBaseUrl (baseUrl : Str) : Str :=
  if endsWithSlash baseUrl then baseUrl.dropLast else baseUrl

/-- `normalizeRestBase` from src/api/wordpress.ts.  `none` models the
`undefined` argument; the first guard is `!restBase || restBase.trim() === ""`;
`replace(/^\/+/, "")` strips all leading slashes; the final conditional is
the source's `startsWith("wp-json")` ternary whose two arms coincide. -/
def normalizeRestBase : Option Str → Str
  | none => defaultRestBase
  | some s =>
    if s = [] ∨ jsTrim s = [] then defaultRestBase
    else
      let t := s.dropWhile isSlash
      let w := if endsWithSlash t then t else t ++ ['/']
      if startsWithChars ("wp-json".data) w then '/' :: w else '/' :: w

/-- Modelled from the spec: the reference algorithm of the claim, read
literally — strip all leading slashes, ensure EXACTLY one trailing slash
(collapse any run of trailing slashes to a single one, appending one if
absent), then ensure EXACTLY one leading slash (strip leading slashes and
prefix a single one). -/
def normalizeRestBaseSpec : Option Str → Str
  | none => defaultRestBase
  | some s =>
    if s = [] ∨ jsTrim s = [] then defaultRestBase
    else
      let noLead := s.dropWhile isSlash
      let oneTrail := (noLead.reverse.dropWhile isSlash).reverse ++ ['/']
      '/' :: oneTrail.dropWhile isSlash

/-- Modelled from the spec: the simplified function of the claim — same
empty-check, same stripping of all leading slashes, same trailing-slash
step, then an unconditional single `/` in front (no branch on `wp-json`). -/
def normalizeRestBaseSimplified : Option Str → Str
  | none => defaultRestBase
  | some s =>
    if s = [] ∨ jsTrim s = [] then defaultRestBase
    else
      let t := s.dropWhile isSlash
      let w := if endsWithSlash t then t else t ++ ['/']
      '/' :: w

/-- Reference algorithm as amended: strip all leading slashes, append a
trailing slash only when the remainder does not already end in one
(preserving any existing run of trailing slashes), then unconditionally
put a single `/` in front.  Written with `reverse` pattern matching so the
equality with `normalizeRestBase` is not definitional. -/
def normalizeRestBaseRef : Option Str → Str
  | none => defaultRestBase
  | some s =>
    if s = [] ∨ jsTrim s = [] then defaultRestBase
    else
      let t := s.dropWhile isSlash
      let w := match t.reverse with
        | '/' :: _ => t
        | _ => t ++ ['/']
      '/' :: w

/-- Length of the run of `/` characters at the front of a string. -/
def countLeadingSlashes (s : Str) : Nat := (s.takeWhile isSlash).length

/-- The `authStrategy` open tagged union; one variant exists today,
the string constant `"application-password"`. -/
inductive AuthStrategy where
  | applicationPassword
deriving DecidableEq

/-- `SiteCredentials` from src/api/wordpress.ts. -/
structure SiteCredentials where
  username : Str
  applicationPassword : Str
  authStrategy : AuthStrategy
deriving DecidableEq

/-- `SiteConnection` from src/api/wordpress.ts; `restBase` is optional. -/
structure SiteConnection where
  baseUrl : Str
  restBase : Option Str
deriving DecidableEq

/-- `SiteCapabilities` from src/api/wordpress.ts. -/
structure SiteCapabilities where
  categories : Bool
  tags : Bool
  media : Bool
deriving DecidableEq

/-- `WPUser` from src/api/wordpress.ts; `avatar_urls` is an optional
record of strings. -/
structure WPUser where
  id : Nat
  name : Str
  slug : Str
  avatarUrls : Option (List (Str × Str))
deriving DecidableEq

/-- `ValidatedSite` from src/api/wordpress.ts; `user` is optional in the
interface although the implementation always supplies it. -/
structure ValidatedSite where
  capabilities : SiteCapabilities
  user : Option WPUser
deriving DecidableEq

/-- `buildApiUrl` from src/api/wordpress.ts: normalized base, normalized
rest base, route with all leading slashes stripped, concatenated. -/
def buildApiUrl (connection : SiteConnection) (route : Str) : Str :=
  normalizeBaseUrl connection.baseUrl ++ normalizeRestBase connection.restBase ++
    route.dropWhile isSlash

/-- UTF-8 encoding of one character (`Buffer.from(s, "utf8")`). -/
def utf8Bytes (c : Char) : List Nat :=
  let n := c.toNat
  if n < 0x80 then [n]
  else if n < 0x800 then [0xC0 + n / 0x40, 0x80 + n % 0x40]
  else if n < 0x10000 then
    [0xE0 + n / 0x1000, 0x80 + (n / 0x40) % 0x40, 0x80 + n % 0x40]
  else
    [0xF0 + n / 0x40000, 0x80 + (n / 0x1000) % 0x40, 0x80 + (n / 0x40) % 0x40,
      0x80 + n % 0x40]

/-- UTF-8 encoding of a string as a byte list. -/
def utf8Encode (s : Str) : List Nat := (s.map utf8Bytes).flatten

/-- The standard base64 alphabet. -/
def b64Alphabet : Str :=
  "ABCDEFGHIJKLMNOPQRSTUVWXYZabcdefghijklmnopqrstuvwxyz0123456789+/".data

/-- Character for one 6-bit group. -/
def b64Char (n : Nat) : Char := b64Alphabet.getD n '='

/-- Base64 of a final chunk of at most three bytes, with `=` padding. -/
def base64Chunk : List Nat → Str
  | [a, b, c] =>
    [b64Char (a / 4), b64Char (a % 4 * 16 + b / 16), b64Char (b % 16 * 4 + c / 64),
      b64Char (c % 64)]
  | [a, b] => [b64Char (a / 4), b64Char (a % 4 * 16 + b / 16), b64Char (b % 16 * 4), '=']
  | [a] => [b64Char (a / 4), b64Char (a % 4 * 16), '=', '=']
  | _ => []

/-- Base64 of a byte list (`Buffer.toString("base64")`). -/
def base64Encode : List Nat → Str
  | a :: b :: c :: rest => base64Chunk [a, b, c] ++ base64Encode rest
  | rest => base64Chunk rest

/-- `buildAuthHeader` from src/api/wordpress.ts:
`"Basic " + base64(utf8(username + ":" + applicationPassword))`. -/
def buildAuthHeader (credentials : SiteCredentials) : Str :=
  "Basic ".data ++
    base64Encode (utf8Encode (credentials.username ++ ":".data ++
      credentials.applicationPassword))

/-- The request options `fetchJson` passes to its fetcher: method `GET`
plus the `Authorization` and `Accept` headers. -/
structure RequestOptions where
  method : Str
  authorization : Str
  accept : Str
deriving DecidableEq

/-- A fetch `Response`, as observed by `fetchJson`: HTTP status and status
text, the outcome of `response.json()` parsed as the success payload
(`Except` error = malformed JSON), and the optional `message` field that
the same body yields when parsed as an error shape. -/
structure WPResponse (α : Type) where
  status : Nat
  statusText : Str
  json : Except Str α
  errMessage : Option Str

/-- `Response.ok` per the fetch standard: status in the 2xx range. -/
def WPResponse.isOk (r : WPResponse α) : Bool := 200 ≤ r.status && r.status < 300

/-- Outcome of invoking the injected fetcher: a network-level rejection
(the promise rejects) or a response. -/
inductive FetchOutcome (α : Type) where
  | netError (msg : Str)
  | response (r : WPResponse α)

/-- The injected HTTP transport (`type Fetcher = typeof fetch`). -/
def Fetcher (α : Type) := Str → RequestOptions → FetchOutcome α

/-- `extractErrorMessage` from src/api/wordpress.ts: the body's `message`
field when the error body parses and carries one, else
`"<status> <statusText>"`. -/
def extractErrorMessage (r : WPResponse α) : Str :=
  match r.errMessage with
  | some m => m
  | none => (Nat.repr r.status).data ++ " ".data ++ r.statusText

/-- `fetchJson` from src/api/wordpress.ts: GET with basic auth; on a
non-2xx response fail with the extracted message; on 2xx return the parsed
body, propagating a JSON parse failure. -/
def fetchJson (url : Str) (credentials : SiteCredentials) (fetcher : Fetcher α) :
    Except Str α :=
  match fetcher url
      { method := "GET".data, authorization := buildAuthHeader credentials,
        accept := "application/json".data } with
  | .netError m => .error m
  | .response r =>
    if r.isOk then r.json
    else .error (extractErrorMessage r)

/-- The static capability record returned by a successful validation. -/
def staticCapabilities : SiteCapabilities :=
  { categories := true, tags := true, media := true }

/-- `validateSiteConnection` from src/api/wordpress.ts: fetch `users/me`
through `fetchJson`; on success pair the fetched user with the static
capability record; on failure rethrow the same error.  The toast calls of
the source are UI notifications to the excluded presentation layer and
carry no data flow. -/
def validateSiteConnection (connection : SiteConnection)
    (credentials : SiteCredentials) (fetcher : Fetcher WPUser) :
    Except Str ValidatedSite :=
  match fetchJson (buildApiUrl connection ("users/me".data)) credentials fetcher with
  | .ok user => .ok { capabilities := staticCapabilities, user := some user }
  | .error e => .error e

/-- `SiteMetadata` from src/storage/sites.ts; it extends `SiteConnection`
with a mandatory, normalized `restBase`. -/
structure SiteMetadata where
  id : Str
  name : Str
  baseUrl : Str
  restBase : Str
  capabilities : Option SiteCapabilities
  validatedAt : Option Str
deriving DecidableEq

/-- `SiteProfile` from src/storage/sites.ts: metadata plus credentials. -/
structure SiteProfile extends SiteMetadata where
  credentials : SiteCredentials
deriving DecidableEq

/-- `SiteInput` from src/storage/sites.ts. -/
structure SiteInput where
  id : Option Str
  name : Str
  baseUrl : Str
  restBase : Option Str
  username : Str
  applicationPassword : Str
deriving DecidableEq

/-- The value stored under the fixed index key, as observed through
`JSON.parse`: either a well-formed serialization of a metadata array or an
unparsable blob. -/
inductive IndexBlob where
  | good (sites : List SiteMetadata)
  | corrupt
deriving DecidableEq

/-- The value stored under one per-site secret key, as observed through
`JSON.parse`: either a well-formed credential record or unparsable. -/
inductive CredBlob where
  | good (credentials : SiteCredentials)
  | corrupt
deriving DecidableEq

/-- The host key-value store.  The index key `"site-index"` can never
collide with a secret key (every secret key starts with `"site-secret-"`),
so the two regions are modelled as separate fields.  Secrets are an
association list keyed by the full storage key. -/
structure Store where
  index : Option IndexBlob
  secrets : List (Str × CredBlob)
deriving DecidableEq

/-- The per-site secret key, `"site-secret-" + id`. -/
def siteSecretKey (id : Str) : Str := "site-secret-".data ++ id

/-- First binding of a key in the secret region (`LocalStorage.getItem`). -/
def lookupKey (k : Str) : List (Str × CredBlob) → Option CredBlob
  | [] => none
  | (k2, v) :: rest => if k2 == k then some v else lookupKey k rest

/-- `LocalStorage.setItem` on the secret region: bind `k` to `v`,
removing any previous binding. -/
def setKey (k : Str) (v : CredBlob) (l : List (Str × CredBlob)) :
    List (Str × CredBlob) :=
  (k, v) :: l.filter (fun p => !(p.1 == k))

/-- `LocalStorage.removeItem` on the secret region. -/
def removeKey (k : Str) (l : List (Str × CredBlob)) : List (Str × CredBlob) :=
  l.filter (fun p => !(p.1 == k))

/-- `loadSiteMetadata` from src/storage/sites.ts: missing key or a blob
that fails `JSON.parse` yields the empty list. -/
def loadSiteMetadata (s : Store) : List SiteMetadata :=
  match s.index with
  | none => []
  | some .corrupt => []
  | some (.good sites) => sites

/-- `loadCredentials` from src/storage/sites.ts: missing key or a blob
that fails `JSON.parse` yields `none`. -/
def loadCredentials (s : Store) (id : Str) : Option SiteCredentials :=
  match lookupKey (siteSecretKey id) s.secrets with
  | none => none
  | some .corrupt => none
  | some (.good credentials) => some credentials

/-- The body of the `for` loop of `getSites`: walk the metadata records in
order, skip any whose paired credential record is absent, push the rest. -/
def getSitesLoop (s : Store) : List SiteMetadata → List SiteProfile
  | [] => []
  | site :: rest =>
    match loadCredentials s site.id with
    | none => getSitesLoop s rest
    | some credentials =>
      { toSiteMetadata := site, credentials := credentials } :: getSitesLoop s rest

/-- `getSites` from src/storage/sites.ts (the spec's `listSites`). -/
def getSites (s : Store) : List SiteProfile :=
  getSitesLoop s (loadSiteMetadata s)

/-- `getSite` from src/storage/sites.ts. -/
def getSite (s : Store) (id : Str) : Option SiteProfile :=
  match (loadSiteMetadata s).find? (fun entry => entry.id == id) with
  | none => none
  | some site =>
    match loadCredentials s id with
    | none => none
    | some credentials => some { toSiteMetadata := site, credentials := credentials }

/-- Insert-or-replace of `saveSiteMetadata`: `findIndex` on the id, then
either `push` or in-place assignment at the found index. -/
def upsertEntry (metadata : List SiteMetadata) (entry : SiteMetadata) :
    List SiteMetadata :=
  match metadata.findIdx? (fun site => site.id == entry.id) with
  | none => metadata ++ [entry]
  | some i => metadata.set i entry

/-- Recursive restatement of `upsertEntry`, used for induction: replace
the first entry with a matching id, or append at the end. -/
def upsertEntryRec : List SiteMetadata → SiteMetadata → List SiteMetadata
  | [], e => [e]
  | x :: xs, e => if x.id == e.id then e :: xs else x :: upsertEntryRec xs e

/-- `saveSiteMetadata` from src/storage/sites.ts: read the collection,
insert or replace by id, write the collection back under the index key. -/
def saveSiteMetadata (s : Store) (entry : SiteMetadata) : Store :=
  { s with index := some (.good (upsertEntry (loadSiteMetadata s) entry)) }

/-- `saveCredentials` from src/storage/sites.ts. -/
def saveCredentials (s : Store) (id : Str) (credentials : SiteCredentials) : Store :=
  { s with secrets := setKey (siteSecretKey id) (.good credentials) s.secrets }

/-- The `credentials` record `upsertSite` constructs from its input,
tagged with the sole supported auth strategy. -/
def upsertCredentials (input : SiteInput) : SiteCredentials :=
  { username := input.username, applicationPassword := input.applicationPassword,
    authStrategy := .applicationPassword }

/-- The connection `upsertSite` passes to `validateSiteConnection`:
normalized base url and normalized rest base. -/
def upsertConnection (input : SiteInput) : SiteConnection :=
  { baseUrl := normalizeBaseUrl input.baseUrl,
    restBase := some (normalizeRestBase input.restBase) }

/-- The `metadataEntry` record `upsertSite` builds after a successful
validation: reused or generated id, normalized urls, the validation's
capabilities, and the current timestamp. -/
def upsertMetadataEntry (input : SiteInput) (genId now : Str)
    (validation : ValidatedSite) : SiteMetadata :=
  { id := input.id.getD genId, name := input.name,
    baseUrl := normalizeBaseUrl input.baseUrl,
    restBase := normalizeRestBase input.restBase,
    capabilities := some validation.capabilities,
    validatedAt := some now }

/-- `upsertSite` from src/storage/sites.ts, with the effects explicit:
`genId` stands for the `randomUUID()` draw consumed when `input.id` is
absent, `now` for `new Date().toISOString()`, and the fetcher is the
transport handed to `validateSiteConnection`.  The pair returned is the
store after the call together with the fulfilled profile or the thrown
error; the validation call happens before either write, so a validation
failure returns the untouched store. -/
def upsertSite (s : Store) (input : SiteInput) (genId : Str) (now : Str)
    (fetcher : Fetcher WPUser) : Store × Except Str SiteProfile :=
  match validateSiteConnection (upsertConnection input) (upsertCredentials input)
      fetcher with
  | .error e => (s, .error e)
  | .ok validation =>
    let metadataEntry := upsertMetadataEntry input genId now validation
    let s1 := saveSiteMetadata s metadataEntry
    let s2 := saveCredentials s1 (input.id.getD genId) (upsertCredentials input)
    (s2, .ok { toSiteMetadata := metadataEntry,
               credentials := upsertCredentials input })

/-- `removeSite` from src/storage/sites.ts: filter the id out of the
metadata collection, write it back, remove the secret key. -/
def removeSite (s : Store) (id : Str) : Store :=
  { index := some (.good ((loadSiteMetadata s).filter (fun entry => !(entry.id == id)))),
    secrets := removeKey (siteSecretKey id) s.secrets }

/-- Ids of the stored metadata collection, in storage order. -/
def siteIds (s : Store) : List Str := (loadSiteMetadata s).map (fun m => m.id)

deriving instance DecidableEq for Except

/-- A fixed user fixture for concrete runs. -/
def demoUser : WPUser :=
  { id := 7, name := "Admin".data, slug := "admin".data, avatarUrls := none }

/-- A fetcher whose every request succeeds with `demoUser` as JSON body. -/
def okFetcher : Fetcher WPUser := fun _ _ =>
  .response { status := 200, statusText := "OK".data, json := .ok demoUser,
              errMessage := none }

/-- A fetcher whose every request yields 401 with a parsable error body. -/
def failFetcher : Fetcher WPUser := fun _ _ =>
  .response { status := 401, statusText := "Unauthorized".data,
              json := .error ("401".data),
              errMessage := some ("Invalid credentials".data) }

/-- A connection fixture. -/
def demoConnection : SiteConnection :=
  { baseUrl := "https://a.example".data, restBase := none }

/-- Credentials fixture for site `a`. -/
def credA : SiteCredentials :=
  { username := "ua".data, applicationPassword := "pa".data,
    authStrategy := .applicationPassword }

/-- Credentials fixture for site `b`. -/
def credB : SiteCredentials :=
  { username := "ub".data, applicationPassword := "pb".data,
    authStrategy := .applicationPassword }

/-- Metadata fixture for site `a`. -/
def metaA : SiteMetadata :=
  { id := "a".data, name := "Site A".data, baseUrl := "https://a.example".data,
    restBase := "/wp-json/wp/v2/".data, capabilities := none, validatedAt := none }

/-- Metadata fixture for site `b`. -/
def metaB : SiteMetadata :=
  { id := "b".data, name := "Site B".data, baseUrl := "https://b.example".data,
    restBase := "/wp-json/wp/v2/".data, capabilities := none, validatedAt := none }

/-- A store fixture holding two complete site profiles. -/
def demoStore : Store :=
  { index := some (.good [metaA, metaB]),
    secrets := [(siteSecretKey ("a".data), .good credA),
                (siteSecretKey ("b".data), .good credB)] }

/-- An update input for the existing site `a`. -/
def demoInput : SiteInput :=
  { id := some ("a".data), name := "Site A2".data,
    baseUrl := "https://a.example/".data, restBase := none,
    username := "ua".data, applicationPassword := "pa".data }

/-- A create input with no id. -/
def newInput : SiteInput :=
  { id := none, name := "Site C".data, baseUrl := "https://c.example".data,
    restBase := none, username := "uc".data, applicationPassword := "pc".data }

/-- Credentials `upsertSite` constructs from `newInput`. -/
def newCreds : SiteCredentials :=
  { username := newInput.username,
    applicationPassword := newInput.applicationPassword,
    authStrategy := .applicationPassword }

/-- The metadata entry `upsertSite` builds for `newInput` at the fixed
generated id and timestamp. -/
def newEntry : SiteMetadata :=
  { id := "c".data, name := newInput.name,
    baseUrl := normalizeBaseUrl newInput.baseUrl,
    restBase := normalizeRestBase newInput.restBase,
    capabilities := some staticCapabilities,
    validatedAt := some ("2026-02-02T00:00:00.000Z".data) }

/-- The store after the successful upsert of `newInput` into `demoStore`. -/
def storeAfterUpsert : Store :=
  saveCredentials (saveSiteMetadata demoStore newEntry) ("c".data) newCreds

/-- The profile the successful upsert of `newInput` returns. -/
def newProfile : SiteProfile :=
  { toSiteMetadata := newEntry, credentials := newCreds }

/-! ### Helper lemmas about the string utilities -/

lemma normalizeRestBase_default_examples :
    normalizeRestBase none = "/wp-json/wp/v2/".data ∧
      normalizeRestBase (some [' ', '\t']) = "/wp-json/wp/v2/".data ∧
      normalizeRestBase (some ("//custom/api".data)) = "/custom/api/".data := by
  decide

lemma buildAuthHeader_example :
    buildAuthHeader { username := "a".data, applicationPassword := "b".data,
                      authStrategy := .applicationPassword } = "Basic YTpi".data := by
  decide

lemma dropWhile_head_false {α : Type} {p : α → Bool} {l : List α} {c : α}
    {cs : List α} (h : l.dropWhile p = c :: cs) : p c = false := by
  have hh := List.head?_dropWhile_not p l
  rw [h] at hh
  exact hh

lemma jsTrim_cons_slash (w : Str) : jsTrim ('/' :: w) ≠ [] := by
  intro hcontra
  unfold jsTrim at hcontra
  rw [List.dropWhile_cons_of_neg (by decide)] at hcontra
  rw [List.reverse_eq_nil_iff, List.dropWhile_eq_nil_iff] at hcontra
  have h2 := hcontra '/' (by simp)
  exact absurd h2 (by decide)

lemma ensureTrailing_getLast (t : Str) :
    (if endsWithSlash t then t else t ++ ['/']).getLast? = some '/' := by
  by_cases h : endsWithSlash t = true
  · rw [if_pos h]
    simpa [endsWithSlash] using h
  · rw [if_neg h]
    exact List.getLast?_concat t

lemma normalizeRestBase_blank {s : Str} (h : s = [] ∨ jsTrim s = []) :
    normalizeRestBase (some s) = defaultRestBase := by
  simp only [normalizeRestBase, if_pos h]

lemma normalizeRestBase_filled {s : Str} (h : ¬(s = [] ∨ jsTrim s = [])) :
    normalizeRestBase (some s) =
      '/' :: (if endsWithSlash (s.dropWhile isSlash) then s.dropWhile isSlash
        else s.dropWhile isSlash ++ ['/']) := by
  simp only [normalizeRestBase, if_neg h, ite_self]

/-! ### Claims about normalizeRestBase -/

/-- Claim C6: the `startsWith("wp-json")` branch has no observable effect;
`normalizeRestBase` agrees everywhere with the simplified function that
performs the same empty-check, leading-slash stripping and trailing-slash
step and then unconditionally prefixes a single `/`. -/
theorem normalizeRestBase_branch_dead (r : Option Str) :
    normalizeRestBase r = normalizeRestBaseSimplified r := by
  cases r with
  | none => rfl
  | some s =>
    by_cases h : s = [] ∨ jsTrim s = []
    · simp only [normalizeRestBase, normalizeRestBaseSimplified, if_pos h]
    · simp only [normalizeRestBase, normalizeRestBaseSimplified, if_neg h, ite_self]

/-- Claim C4, counterexample: on the input `"/"` the code produces `"//"`
while the claim's reference algorithm (exactly one trailing slash, exactly
one leading slash) produces `"/"`. -/
theorem normalizeRestBase_spec_counterexample :
    normalizeRestBase (some ("/".data)) = "//".data ∧
      normalizeRestBaseSpec (some ("/".data)) = "/".data ∧
      normalizeRestBase (some ("/".data)) ≠ normalizeRestBaseSpec (some ("/".data)) := by
  decide

/-- Claim C4 as amended: for absent, empty or whitespace-only input the
result is `/wp-json/wp/v2/`; for every other input the code strips all
leading slashes, appends a trailing slash only when the remainder does not
already end in one (an existing run of trailing slashes is kept, and the
all-slash remainder becomes `/`), then unconditionally prefixes a single
`/`. -/
theorem normalizeRestBase_eq_ref (r : Option Str) :
    normalizeRestBase r = normalizeRestBaseRef r := by
  cases r with
  | none => rfl
  | some s =>
    by_cases h : s = [] ∨ jsTrim s = []
    · simp only [normalizeRestBase, normalizeRestBaseRef, if_pos h]
    · simp only [normalizeRestBase, normalizeRestBaseRef, if_neg h, ite_self]
      congr 1
      rcases ht : (s.dropWhile isSlash).reverse with _ | ⟨c, rest⟩
      · have hg : (s.dropWhile isSlash).getLast? = none := by
          rw [← List.head?_reverse, ht]
          rfl
        have he : endsWithSlash (s.dropWhile isSlash) = false := by
          unfold endsWithSlash
          rw [hg]
          rfl
        rw [he]
        simp
      · have hg : (s.dropWhile isSlash).getLast? = some c := by
          rw [← List.head?_reverse, ht]
          rfl
        by_cases hc : c = '/'
        · have he : endsWithSlash (s.dropWhile isSlash) = true := by
            unfold endsWithSlash
            rw [hg, hc]
            rfl
          rw [he, hc]
          simp
        · have he : endsWithSlash (s.dropWhile isSlash) = false := by
            unfold endsWithSlash
            rw [hg]
            exact beq_eq_false_iff_ne.mpr (by simpa using hc)
          rw [he]
          have hm : (match c :: rest with
              | '/' :: _ => s.dropWhile isSlash
              | _ => s.dropWhile isSlash ++ ['/']) =
              s.dropWhile isSlash ++ ['/'] := by
            split
            · rename_i heq
              injection heq with h1 h2
              simp_all
            · rfl
          rw [hm]
          simp

/-- Claim C5, counterexample: the non-empty input `"/"` yields `"//"`,
whose leading run of slashes has length two. -/
theorem normalizeRestBase_leading_run_counterexample :
    normalizeRestBase (some ("/".data)) = "//".data ∧
      ¬ countLeadingSlashes (normalizeRestBase (some ("/".data))) ≤ 1 := by
  decide

/-- Claim C5 as amended: for every non-empty `r` the result starts and
ends with `/`; and whenever `r` contains at least one non-slash character
(equivalently, stripping all leading slashes leaves something), the
leading run of slashes in the result has length exactly one.  An input
consisting solely of slashes is the one exception: it normalizes to `//`. -/
theorem normalizeRestBase_shape (r : Str) (hr : r ≠ []) :
    (normalizeRestBase (some r)).head? = some '/' ∧
      (normalizeRestBase (some r)).getLast? = some '/' ∧
      (r.dropWhile isSlash ≠ [] →
        countLeadingSlashes (normalizeRestBase (some r)) = 1) := by
  by_cases h : r = [] ∨ jsTrim r = []
  · rw [normalizeRestBase_blank h]
    exact ⟨by decide, by decide, fun _ => by decide⟩
  · rw [normalizeRestBase_filled h]
    refine ⟨rfl, ?_, ?_⟩
    · rcases htr : r.dropWhile isSlash with _ | ⟨c, cs⟩
      · decide
      · have := ensureTrailing_getLast (c :: cs)
        by_cases he : endsWithSlash (c :: cs) = true
        · rw [if_pos he] at this ⊢
          rw [List.getLast?_cons_cons]
          exact this
        · rw [if_neg he] at this ⊢
          rw [show c :: cs ++ ['/'] = c :: (cs ++ ['/']) from rfl,
            List.getLast?_cons_cons]
          exact this
    · intro hne
      rcases htr : r.dropWhile isSlash with _ | ⟨c, cs⟩
      · exact absurd htr hne
      · have hc : isSlash c = false := dropWhile_head_false htr
        by_cases he : endsWithSlash (c :: cs) = true
        · rw [if_pos he]
          unfold countLeadingSlashes
          rw [List.takeWhile_cons_of_pos (by decide),
            List.takeWhile_cons_of_neg (by simp [hc])]
          rfl
        · rw [if_neg he]
          unfold countLeadingSlashes
          rw [show c :: cs ++ ['/'] = c :: (cs ++ ['/']) from rfl]
          rw [List.takeWhile_cons_of_pos (by decide),
            List.takeWhile_cons_of_neg (by simp [hc])]
          rfl

/-- Witness for the amended C5 at the concrete input `"custom"`. -/
theorem normalizeRestBase_shape_witness :
    "custom".data ≠ ([] : Str) ∧
      ((normalizeRestBase (some ("custom".data))).head? = some '/' ∧
        (normalizeRestBase (some ("custom".data))).getLast? = some '/' ∧
        ("custom".data.dropWhile isSlash ≠ [] →
          countLeadingSlashes (normalizeRestBase (some ("custom".data))) = 1)) :=
  ⟨by decide, normalizeRestBase_shape ("custom".data) (by decide)⟩

lemma normalizeRestBase_cases (r : Option Str) :
    normalizeRestBase r = defaultRestBase ∨
      normalizeRestBase r = ['/', '/'] ∨
      ∃ c cs, normalizeRestBase r = '/' :: c :: cs ∧ isSlash c = false ∧
        (c :: cs).getLast? = some '/' := by
  cases r with
  | none => exact .inl rfl
  | some s =>
    by_cases h : s = [] ∨ jsTrim s = []
    · exact .inl (normalizeRestBase_blank h)
    · rw [normalizeRestBase_filled h]
      rcases htr : s.dropWhile isSlash with _ | ⟨c, cs⟩
      · right
        left
        decide
      · right
        right
        have hc : isSlash c = false := dropWhile_head_false htr
        by_cases he : endsWithSlash (c :: cs) = true
        · refine ⟨c, cs, ?_, hc, ?_⟩
          · rw [if_pos he]
          · simpa [endsWithSlash] using he
        · refine ⟨c, cs ++ ['/'], ?_, hc, ?_⟩
          · rw [if_neg he]
            rfl
          · rw [show c :: (cs ++ ['/']) = (c :: cs) ++ ['/'] from rfl]
            exact List.getLast?_concat _

/-- Claim C10: `normalizeRestBase` is idempotent — normalizing an already
normalized rest base changes nothing. -/
theorem normalizeRestBase_idem (r : Option Str) :
    normalizeRestBase (some (normalizeRestBase r)) = normalizeRestBase r := by
  rcases normalizeRestBase_cases r with h | h | ⟨c, cs, h, hc, hl⟩
  · rw [h]
    decide
  · rw [h]
    decide
  · rw [h]
    have hne : ¬(('/' :: c :: cs : Str) = [] ∨ jsTrim ('/' :: c :: cs) = []) := by
      push_neg
      exact ⟨by simp, jsTrim_cons_slash _⟩
    rw [normalizeRestBase_filled hne]
    have ht : ('/' :: c :: cs : Str).dropWhile isSlash = c :: cs := by
      rw [List.dropWhile_cons_of_pos (by decide),
        List.dropWhile_cons_of_neg (by simp [hc])]
    rw [ht]
    have he : endsWithSlash (c :: cs) = true := by
      unfold endsWithSlash
      rw [hl]
      rfl
    rw [if_pos he]

/-! ### Helper lemmas about the store -/

lemma lookupKey_setKey_same (k : Str) (v : CredBlob) (l : List (Str × CredBlob)) :
    lookupKey k (setKey k v l) = some v := by
  simp [lookupKey, setKey]

lemma upsertEntry_eq_rec (l : List SiteMetadata) (e : SiteMetadata) :
    upsertEntry l e = upsertEntryRec l e := by
  induction l with
  | nil => rfl
  | cons x xs ih =>
    unfold upsertEntry upsertEntryRec
    rw [List.findIdx?_cons]
    by_cases h : x.id == e.id
    · rw [if_pos h, if_pos h]
      rfl
    · rw [if_neg h, if_neg h, List.findIdx?_succ]
      cases hf : xs.findIdx? (fun site => site.id == e.id) with
      | none =>
        rw [← ih]
        unfold upsertEntry
        rw [hf]
        simp
      | some i =>
        rw [← ih]
        unfold upsertEntry
        rw [hf]
        simp

lemma find?_upsertEntryRec (l : List SiteMetadata) (e : SiteMetadata) :
    (upsertEntryRec l e).find? (fun x => x.id == e.id) = some e := by
  induction l with
  | nil =>
    simp [upsertEntryRec, List.find?_cons_of_pos]
  | cons x xs ih =>
    unfold upsertEntryRec
    by_cases h : x.id == e.id
    · rw [if_pos h]
      simp [List.find?_cons_of_pos]
    · rw [if_neg h]
      rw [List.find?_cons_of_neg _ (by simpa using h)]
      exact ih

lemma map_id_upsertEntryRec (l : List SiteMetadata) (e : SiteMetadata) :
    ((upsertEntryRec l e).map (fun m => m.id) = l.map (fun m => m.id) ∧
        e.id ∈ l.map (fun m => m.id)) ∨
      ((upsertEntryRec l e).map (fun m => m.id) =
          l.map (fun m => m.id) ++ [e.id] ∧
        e.id ∉ l.map (fun m => m.id)) := by
  induction l with
  | nil =>
    right
    simp [upsertEntryRec]
  | cons x xs ih =>
    unfold upsertEntryRec
    by_cases h : x.id == e.id
    · left
      have hx : x.id = e.id := by simpa using h
      rw [if_pos h]
      simp [hx]
    · have hx : ¬ e.id = x.id := fun hh => by simp [hh] at h
      rw [if_neg h]
      rcases ih with ⟨h1, h2⟩ | ⟨h1, h2⟩
      · left
        simp [h1, h2]
      · right
        constructor
        · simp [h1]
        · simp [hx, h2]

lemma nodup_map_id_upsertEntryRec (l : List SiteMetadata) (e : SiteMetadata)
    (h : (l.map (fun m => m.id)).Nodup) :
    ((upsertEntryRec l e).map (fun m => m.id)).Nodup := by
  rcases map_id_upsertEntryRec l e with ⟨h1, _⟩ | ⟨h1, h2⟩
  · rw [h1]
    exact h
  · rw [h1, List.nodup_append]
    exact ⟨h, List.nodup_singleton _, by simpa using h2⟩

lemma find?_filter_ne (l : List SiteMetadata) (id : Str) :
    (l.filter (fun e => !(e.id == id))).find? (fun e => e.id == id) = none := by
  rw [List.find?_eq_none]
  intro x hx
  rw [List.mem_filter] at hx
  simpa using hx.2

lemma getSitesLoop_eq_filterMap (s : Store) (l : List SiteMetadata) :
    getSitesLoop s l = l.filterMap
      (fun m => (loadCredentials s m.id).map
        (fun c => { toSiteMetadata := m, credentials := c })) := by
  induction l with
  | nil => rfl
  | cons x xs ih =>
    unfold getSitesLoop
    cases hc : loadCredentials s x.id with
    | none => simp [List.filterMap_cons, hc, ih]
    | some c => simp [List.filterMap_cons, hc, ih]

lemma mem_getSitesLoop (s : Store) (l : List SiteMetadata) (p : SiteProfile)
    (hp : p ∈ getSitesLoop s l) : ∃ m ∈ l, p.id = m.id := by
  induction l with
  | nil => simp [getSitesLoop] at hp
  | cons x xs ih =>
    unfold getSitesLoop at hp
    cases hc : loadCredentials s x.id with
    | none =>
      rw [hc] at hp
      obtain ⟨m, hm, he⟩ := ih hp
      exact ⟨m, List.mem_cons_of_mem _ hm, he⟩
    | some c =>
      rw [hc] at hp
      rcases List.mem_cons.mp hp with rfl | hp2
      · exact ⟨x, List.mem_cons_self _ _, rfl⟩
      · obtain ⟨m, hm, he⟩ := ih hp2
        exact ⟨m, List.mem_cons_of_mem _ hm, he⟩

lemma getSite_after_save (s : Store) (e : SiteMetadata) (c : SiteCredentials) :
    getSite (saveCredentials (saveSiteMetadata s e) e.id c) e.id =
      some { toSiteMetadata := e, credentials := c } := by
  unfold getSite
  have h1 : loadSiteMetadata (saveCredentials (saveSiteMetadata s e) e.id c) =
      upsertEntry (loadSiteMetadata s) e := rfl
  rw [h1, upsertEntry_eq_rec, find?_upsertEntryRec]
  have h2 : loadCredentials (saveCredentials (saveSiteMetadata s e) e.id c) e.id =
      some c := by
    unfold loadCredentials saveCredentials
    rw [lookupKey_setKey_same]
  rw [h2]

/-! ### Claims about the REST client and the store -/

/-- Claim C9: whenever the `users/me` fetch succeeds,
`validateSiteConnection` returns the fetched user paired with the static
capability record `{categories := true, tags := true, media := true}`; no
per-endpoint probing influences the result. -/
theorem validateSiteConnection_static (connection : SiteConnection)
    (credentials : SiteCredentials) (fetcher : Fetcher WPUser) (user : WPUser)
    (h : fetchJson (buildApiUrl connection ("users/me".data)) credentials fetcher =
      .ok user) :
    validateSiteConnection connection credentials fetcher =
      .ok { capabilities := { categories := true, tags := true, media := true },
            user := some user } := by
  unfold validateSiteConnection
  rw [h]
  rfl

/-- Witness for C9 at a concrete connection and fetcher. -/
theorem validateSiteConnection_static_witness :
    fetchJson (buildApiUrl demoConnection ("users/me".data)) credA okFetcher =
        .ok demoUser ∧
      validateSiteConnection demoConnection credA okFetcher =
        .ok { capabilities := { categories := true, tags := true, media := true },
              user := some demoUser } :=
  ⟨by decide,
    validateSiteConnection_static demoConnection credA okFetcher demoUser (by decide)⟩

/-- Claim C1: when the validation call fails, `upsertSite` fails with the
same propagated error and performs no storage mutation — the returned
store (metadata collection and every credential record) is the input
store. -/
theorem upsertSite_validation_failure (s : Store) (input : SiteInput)
    (genId now : Str) (fetcher : Fetcher WPUser) (e : Str)
    (h : validateSiteConnection (upsertConnection input) (upsertCredentials input)
      fetcher = .error e) :
    upsertSite s input genId now fetcher = (s, .error e) := by
  unfold upsertSite
  rw [h]

/-- Witness for C1: a 401-answering fetcher leaves `demoStore` untouched
and propagates the body's error message. -/
theorem upsertSite_validation_failure_witness :
    validateSiteConnection (upsertConnection demoInput) (upsertCredentials demoInput)
        failFetcher = .error ("Invalid credentials".data) ∧
      upsertSite demoStore demoInput ("g".data) ("2026-03-03".data) failFetcher =
        (demoStore, .error ("Invalid credentials".data)) :=
  ⟨by decide,
    upsertSite_validation_failure demoStore demoInput ("g".data) ("2026-03-03".data)
      failFetcher ("Invalid credentials".data) (by decide)⟩

/-- Claim C2: when `upsertSite` succeeds with profile `p` and store `s2`,
`getSite s2 p.id` returns exactly `p`.  `getSite` takes no fetcher: by
construction it cannot perform a validation call. -/
theorem upsertSite_getSite_roundtrip (s : Store) (input : SiteInput)
    (genId now : Str) (fetcher : Fetcher WPUser) (s2 : Store) (p : SiteProfile)
    (h : upsertSite s input genId now fetcher = (s2, .ok p)) :
    getSite s2 p.id = some p := by
  unfold upsertSite at h
  cases hv : validateSiteConnection (upsertConnection input)
      (upsertCredentials input) fetcher with
  | error e =>
    rw [hv] at h
    simp at h
  | ok validation =>
    rw [hv] at h
    simp only [Prod.mk.injEq, Except.ok.injEq] at h
    obtain ⟨h1, h2⟩ := h
    subst h1
    subst h2
    exact getSite_after_save s (upsertMetadataEntry input genId now validation)
      (upsertCredentials input)

/-- Witness for C2 on a fresh input inserted into `demoStore`. -/
theorem upsertSite_getSite_roundtrip_witness :
    upsertSite demoStore newInput ("c".data) ("2026-02-02T00:00:00.000Z".data)
        okFetcher = (storeAfterUpsert, .ok newProfile) ∧
      getSite storeAfterUpsert newProfile.id = some newProfile :=
  ⟨by decide,
    upsertSite_getSite_roundtrip demoStore newInput ("c".data)
      ("2026-02-02T00:00:00.000Z".data) okFetcher storeAfterUpsert newProfile
      (by decide)⟩

/-- Claim C3: the listing returns exactly the metadata entries whose
paired credential record exists and parses (filterMap over
`loadCredentials`, which is `none` for a missing key and for an unparsable
blob); such entries are silently skipped, and the function is total — no
error is thrown. -/
theorem getSites_eq_filterMap (s : Store) :
    getSites s = (loadSiteMetadata s).filterMap
      (fun m => (loadCredentials s m.id).map
        (fun c => { toSiteMetadata := m, credentials := c })) :=
  getSitesLoop_eq_filterMap s (loadSiteMetadata s)

/-- Claim C7: after `removeSite id`, `getSite id` is absent and no listed
profile carries that id. -/
theorem removeSite_erases (s : Store) (id : Str) :
    getSite (removeSite s id) id = none ∧
      ∀ p ∈ getSites (removeSite s id), ¬ p.id = id := by
  constructor
  · unfold getSite
    have h1 : loadSiteMetadata (removeSite s id) =
        (loadSiteMetadata s).filter (fun entry => !(entry.id == id)) := rfl
    rw [h1, find?_filter_ne]
  · intro p hp
    unfold getSites at hp
    obtain ⟨m, hm, he⟩ := mem_getSitesLoop _ _ p hp
    have h1 : loadSiteMetadata (removeSite s id) =
        (loadSiteMetadata s).filter (fun entry => !(entry.id == id)) := rfl
    rw [h1, List.mem_filter] at hm
    have hne : ¬ m.id = id := by simpa using hm.2
    rw [he]
    exact hne

/-- Witness for C7 at the concrete store fixture. -/
theorem removeSite_erases_witness :
    getSite (removeSite demoStore ("a".data)) ("a".data) = none ∧
      ∀ p ∈ getSites (removeSite demoStore ("a".data)), ¬ p.id = "a".data :=
  removeSite_erases demoStore ("a".data)

/-- Claim C8: pairwise-distinct stored ids are preserved by `upsertSite`
and `removeSite`; and when the upserted id already exists, the id list is
unchanged — the entry is replaced in place, no second entry appears and no
stored id changes. -/
theorem siteIds_nodup_invariant (s : Store) (input : SiteInput) (genId now : Str)
    (fetcher : Fetcher WPUser) (rid : Str) (h : (siteIds s).Nodup) :
    (siteIds (upsertSite s input genId now fetcher).1).Nodup ∧
      (siteIds (removeSite s rid)).Nodup ∧
      (input.id.getD genId ∈ siteIds s →
        siteIds (upsertSite s input genId now fetcher).1 = siteIds s) := by
  have hrem : (siteIds (removeSite s rid)).Nodup := by
    have h1 : siteIds (removeSite s rid) =
        ((loadSiteMetadata s).filter (fun e => !(e.id == rid))).map
          (fun m => m.id) := rfl
    rw [h1]
    exact h.sublist ((List.filter_sublist _).map _)
  cases hv : validateSiteConnection (upsertConnection input)
      (upsertCredentials input) fetcher with
  | error e =>
    have hfst : (upsertSite s input genId now fetcher).1 = s := by
      unfold upsertSite
      rw [hv]
    rw [hfst]
    exact ⟨h, hrem, fun _ => rfl⟩
  | ok validation =>
    have hfst : siteIds (upsertSite s input genId now fetcher).1 =
        (upsertEntryRec (loadSiteMetadata s)
          (upsertMetadataEntry input genId now validation)).map (fun m => m.id) := by
      unfold upsertSite
      rw [hv]
      show (upsertEntry (loadSiteMetadata s) _).map _ = _
      rw [upsertEntry_eq_rec]
    refine ⟨?_, hrem, ?_⟩
    · rw [hfst]
      exact nodup_map_id_upsertEntryRec _ _ h
    · intro hm
      rcases map_id_upsertEntryRec (loadSiteMetadata s)
          (upsertMetadataEntry input genId now validation) with ⟨h1, _⟩ | ⟨_, h2⟩
      · rw [hfst]
        exact h1
      · exact absurd hm h2

/-- Witness for C8: updating the existing id `a` in `demoStore`. -/
theorem siteIds_nodup_invariant_witness :
    (siteIds demoStore).Nodup ∧
      ((siteIds (upsertSite demoStore demoInput ("g".data) ("2026-04-04".data)
          okFetcher).1).Nodup ∧
        (siteIds (removeSite demoStore ("b".data))).Nodup ∧
        (demoInput.id.getD ("g".data) ∈ siteIds demoStore →
          siteIds (upsertSite demoStore demoInput ("g".data) ("2026-04-04".data)
              okFetcher).1 = siteIds demoStore)) :=
  ⟨by decide,
    siteIds_nodup_invariant demoStore demoInput ("g".data) ("2026-04-04".data)
      okFetcher ("b".data) (by decide)⟩
